import Mathlib

/-!
Verification of the Flow-Chart component: a shallow embedding of the
row data model, the dependency-closure ("actionable") computation, the
filter predicate set, the graph builder (nodes and edges), the
completion-toggle mutation and the CSV-load field defaulting, together
with theorems settling the specification claims.
-/

namespace FlowChart

/-- One task row, mirroring the TS `Row` type.  The TS field `section`
is a Lean keyword, so it is called `sect` here; all other field names
are kept.  Optional TS fields are `Option String`. -/
structure Row where
  id : String
  title : String
  sect : Option String := none
  stage : Option String := none
  description : Option String := none
  priority : Option String := none
  depends_on : Option String := none
  status : Option String := none
  tags : Option String := none
  deriving DecidableEq, Repr

/-- JS `s || d` on an optional string: `undefined` and `""` are falsy. -/
def jsOr (s : Option String) (d : String) : String :=
  match s with
  | none => d
  | some t => if t = "" then d else t

/-- JS `String.prototype.split` with a one-character separator, on the
character list.  Splitting the empty list yields one empty group, as in
JS where `"".split("|")` is `[""]`. -/
def splitChars (sep : Char) : List Char → List (List Char)
  | [] => [[]]
  | c :: rest =>
    match splitChars sep rest with
    | [] => if c = sep then [[], []] else [[c]]
    | g :: gs => if c = sep then [] :: g :: gs else (c :: g) :: gs

/-- Source `s.split("|")` as a list of strings. -/
def jsSplitPipe (s : String) : List String := (splitChars '|' s.data).map String.mk

/-- Whitespace for `trim`. -/
def wsChar (c : Char) : Bool := c = ' ' || c = '\t' || c = '\r' || c = '\n'

/-- JS `String.prototype.trim`: strip leading and trailing whitespace. -/
def jsTrim (s : String) : String :=
  ⟨((s.data.dropWhile wsChar).reverse.dropWhile wsChar).reverse⟩

/-- ASCII lower-casing of one character. -/
def lowerChar (c : Char) : Char :=
  if 65 ≤ c.toNat ∧ c.toNat ≤ 90 then Char.ofNat (c.toNat + 32) else c

/-- JS `String.prototype.toLowerCase`. -/
def jsToLower (s : String) : String := ⟨s.data.map lowerChar⟩

/-- Source `ci`: `(s || "").toLowerCase()`. -/
def ci (s : Option String) : String := jsToLower (jsOr s "")

/-- Source `list`: `(s || "").split("|").map(t => t.trim()).filter(Boolean)`. -/
def list (s : Option String) : List String :=
  ((jsSplitPipe (jsOr s "")).map jsTrim).filter (fun t => t ≠ "")

/-- Source `depsOf(r) = list(r.depends_on)`. -/
def depsOf (r : Row) : List String := list r.depends_on

/-- Source test `r.status === "done"`. -/
def isDone (r : Row) : Bool := decide (r.status = some "done")

/-- Source `completed`: ids of rows with `status === "done"`. -/
def doneIds (rows : List Row) : List String :=
  (rows.filter isDone).map (·.id)

/-- The filter predicate of the `actionable` computation:
`r.status !== "done" && depsOf(r).every(d => completed.has(d))`. -/
def isActionable (rows : List Row) (r : Row) : Bool :=
  !(isDone r) && (depsOf r).all (fun d => (doneIds rows).contains d)

/-- The rows passing the `actionable` filter. -/
def actionableRows (rows : List Row) : List Row :=
  rows.filter (isActionable rows)

/-- Source `actionable`: the id set of the actionable rows. -/
def actionableIds (rows : List Row) : List String :=
  (actionableRows rows).map (·.id)

/-- Source constant `STAGE_ORDER`. -/
def STAGE_ORDER : List String := ["Setup", "Start", "Early", "Late"]

/-- The status selector `"all" | "todo" | "done"`. -/
inductive StatusFilter
  | all
  | todo
  | done
  deriving DecidableEq, Repr

/-- The filter state held in component state; defaults are the initial
`useState` values. -/
structure FilterState where
  query : String := ""
  statusFilter : StatusFilter := .all
  selectedStages : List String := STAGE_ORDER
  selectedSections : List String := []
  selectedTags : List String := []
  onlyNextActionable : Bool := false
  deriving DecidableEq, Repr

/-- Source predicate `okStatus`. -/
def okStatus (fs : FilterState) (r : Row) : Bool :=
  match fs.statusFilter with
  | .all => true
  | .todo => !(isDone r)
  | .done => isDone r

/-- Source `okStage`: `selectedStages.includes(r.stage || "")`. -/
def okStage (fs : FilterState) (r : Row) : Bool :=
  fs.selectedStages.contains (jsOr r.stage "")

/-- Source `okSection`: `selectedSections.includes(r.section || "General")`. -/
def okSection (fs : FilterState) (r : Row) : Bool :=
  fs.selectedSections.contains (jsOr r.sect "General")

/-- Source predicate `okTags`. -/
def okTags (fs : FilterState) (r : Row) : Bool :=
  if fs.selectedTags.isEmpty then true
  else (list r.tags).any (fun t => fs.selectedTags.contains t)

/-- The search haystack:
`[r.title, r.description, r.section, r.stage, r.tags].map(ci).join(" ")`. -/
def searchHay (r : Row) : String :=
  String.intercalate " " ([some r.title, r.description, r.sect, r.stage, r.tags].map ci)

/-- JS `hay.includes(q)`: substring containment. -/
def jsIncludes (hay q : String) : Bool := decide (q.data <:+: hay.data)

/-- Source `okSearch` with `q = ci(query)`. -/
def okSearch (fs : FilterState) (r : Row) : Bool :=
  if ci (some fs.query) = "" then true
  else jsIncludes (searchHay r) (ci (some fs.query))

/-- The conjunction of the five row-local predicates. -/
def okAll (fs : FilterState) (r : Row) : Bool :=
  okStatus fs r && okStage fs r && okSection fs r && okTags fs r && okSearch fs r

/-- Source `rawRows.filter(r => okStatus && okStage && okSection && okTags && okSearch)`. -/
def baseVisible (rows : List Row) (fs : FilterState) : List Row :=
  rows.filter (okAll fs)

/-- Source `visibleRows`, including the `onlyNextActionable` refinement filter. -/
def visibleRows (rows : List Row) (fs : FilterState) : List Row :=
  if fs.onlyNextActionable then
    (baseVisible rows fs).filter (fun r => (actionableIds rows).contains r.id)
  else baseVisible rows fs

/-- Source set `visibleIds`. -/
def visibleIds (rows : List Row) (fs : FilterState) : List String :=
  (visibleRows rows fs).map (·.id)

/-- A built edge: `{ id: dep + "->" + r.id, source: dep, target: r.id }`. -/
structure Edge where
  id : String
  source : String
  target : String
  deriving DecidableEq, Repr

/-- Source `edgesBuilt`: for each visible row, one edge per dependency whose id
is in the visible id set. -/
def edgesBuilt (rows : List Row) (fs : FilterState) : List Edge :=
  (visibleRows rows fs).flatMap (fun r =>
    ((depsOf r).filter (fun d => (visibleIds rows fs).contains d)).map
      (fun d => { id := d ++ "->" ++ r.id, source := d, target := r.id }))

/-- The data a built node carries: id, zeroed position, and the display
payload the JSX label embeds (the status enters only through the
`r.status === "done"` boolean). -/
structure NodeData where
  id : String
  x : Int := 0
  y : Int := 0
  title : String
  sectionLabel : String
  stage : Option String
  description : Option String
  done : Bool
  priority : Option String
  className : String
  deriving DecidableEq, Repr

/-- One built node for a visible row. -/
def mkNode (r : Row) : NodeData :=
  { id := r.id
    title := r.title
    sectionLabel := jsOr r.sect "General"
    stage := r.stage
    description := r.description
    done := isDone r
    priority := r.priority
    className := "stage-" ++ jsToLower (jsOr r.stage "") }

/-- Source list `nodesBuilt`. -/
def nodesBuilt (rows : List Row) (fs : FilterState) : List NodeData :=
  (visibleRows rows fs).map mkNode

/-- The checkbox `onChange` mutation:
`rows.map(rr => rr.id === r.id ? { ...rr, status: checked ? "done" : "todo" } : rr)`. -/
def toggleStatus (rows : List Row) (rid : String) (checked : Bool) : List Row :=
  rows.map (fun rr =>
    if rr.id = rid then { rr with status := some (if checked then "done" else "todo") }
    else rr)

/-- CSV-load normalisation of one row: trim id and title, default stage
to `"Unsorted"` and status to `"todo"`. -/
def loadRow (r : Row) : Row :=
  { r with
    id := jsTrim r.id
    title := jsTrim r.title
    stage := some (jsTrim (jsOr r.stage "Unsorted"))
    status := some (jsTrim (jsOr r.status "todo")) }

/-- Insertion into a ≤-sorted string list. -/
def insertSorted (s : String) : List String → List String
  | [] => [s]
  | t :: ts => if s ≤ t then s :: t :: ts else t :: insertSorted s ts

/-- Lexicographic string sort (JS `Array.prototype.sort` default). -/
def sortStrings (l : List String) : List String := l.foldr insertSorted []

/-- First-occurrence deduplication (JS `Set` iteration order). -/
def dedupKeepFirst : List String → List String
  | [] => []
  | s :: ss => s :: (dedupKeepFirst ss).filter (fun t => t ≠ s)

/-- Source `allSections`: `Array.from(new Set(rows.map(r => r.section || "General"))).sort()`. -/
def allSections (rows : List Row) : List String :=
  sortStrings (dedupKeepFirst (rows.map (fun r => jsOr r.sect "General")))

/-- The body of the section-defaulting effect: it fires whenever
`rawRows.length && selectedSections.length === 0`, replacing the
selection with `allSections`. -/
def applySectionDefault (rows : List Row) (sel : List String) : List String :=
  if rows.length ≠ 0 ∧ sel.length = 0 then allSections rows else sel

/-- Startup filter state with a given selected-section set; every
other filter keeps its startup default. -/
def defaultFilterState (sections : List String) : FilterState :=
  { selectedSections := sections }

/-- Demo row `A`: done, no dependencies. -/
def rowA : Row :=
  { id := "A", title := "a", stage := some "Setup", status := some "done" }

/-- Demo row `B`: todo, depends on `A`. -/
def rowB : Row :=
  { id := "B", title := "b", stage := some "Setup", depends_on := some "A",
    status := some "todo" }

/-- Demo row set of Scenario 1. -/
def demoRows : List Row := [rowA, rowB]

/-- Startup filter state over the demo rows' single section. -/
def demoFS : FilterState := defaultFilterState ["General"]

/-- The demo filter state with the actionable-only flag set. -/
def demoFSNext : FilterState := { demoFS with onlyNextActionable := true }

theorem jsOr_some_empty (q : String) : jsOr (some q) "" = q := by
  by_cases h : q = "" <;> simp [jsOr, h]

theorem visibleRows_subset (rows : List Row) (fs : FilterState) :
    ∀ r ∈ visibleRows rows fs, r ∈ rows := by
  intro r hr
  rw [visibleRows] at hr
  by_cases hflag : fs.onlyNextActionable = true
  · rw [if_pos hflag] at hr
    exact List.filter_subset' rows (List.filter_subset' _ hr)
  · rw [if_neg hflag] at hr
    exact List.filter_subset' rows hr

/- ------------------------------------------------------------------ -/
/- Claim C1: characterisation of the actionable set.                   -/
/- ------------------------------------------------------------------ -/

theorem mem_doneIds_iff (rows : List Row) (d : String) :
    d ∈ doneIds rows ↔ ∃ r ∈ rows, r.id = d ∧ r.status = some "done" := by
  unfold doneIds
  simp only [List.mem_map, List.mem_filter, isDone, decide_eq_true_eq]
  constructor
  · rintro ⟨r, ⟨hr, hs⟩, hid⟩
    exact ⟨r, hr, hid, hs⟩
  · rintro ⟨r, hr, hid, hs⟩
    exact ⟨r, ⟨hr, hs⟩, hid⟩

theorem mem_actionableRows_iff (rows : List Row) (r : Row) (hr : r ∈ rows) :
    r ∈ actionableRows rows ↔
      r.status ≠ some "done" ∧ ∀ d ∈ depsOf r, d ∈ doneIds rows := by
  unfold actionableRows isActionable isDone
  simp [hr, List.all_eq_true]

/-- C1: a row of the row set is actionable exactly when its status is
not `"done"` and each of its dependency ids is the id of a done row;
a row with no dependencies is actionable iff it is not done; a row
listing a dependency id that is no row's id is never actionable. -/
theorem actionable_closure_spec (rows : List Row) :
    (∀ r ∈ rows,
        (r ∈ actionableRows rows ↔
          r.status ≠ some "done" ∧ ∀ d ∈ depsOf r, d ∈ doneIds rows)) ∧
    (∀ r ∈ rows, depsOf r = [] →
        (r ∈ actionableRows rows ↔ r.status ≠ some "done")) ∧
    (∀ r ∈ rows, ∀ d ∈ depsOf r, d ∉ rows.map (·.id) →
        r ∉ actionableRows rows) := by
  refine ⟨fun r hr => mem_actionableRows_iff rows r hr, ?_, ?_⟩
  · intro r hr hdeps
    rw [mem_actionableRows_iff rows r hr, hdeps]
    simp
  · intro r hr d hd hnotid hmem
    rcases (mem_actionableRows_iff rows r hr).1 hmem with ⟨-, hall⟩
    rcases (mem_doneIds_iff rows d).1 (hall d hd) with ⟨r', hr', hid, -⟩
    exact hnotid (List.mem_map.2 ⟨r', hr', hid⟩)

/-- Witness for C1 at a concrete row set: `A` done, `B` depending on
`A`, `C` depending on the absent id `X`. -/
theorem actionable_closure_spec_witness :
    ({ id := "B", title := "b", depends_on := some "A", status := some "todo" } : Row) ∈
      actionableRows
        [{ id := "A", title := "a", status := some "done" },
         { id := "B", title := "b", depends_on := some "A", status := some "todo" },
         { id := "C", title := "c", depends_on := some "X", status := some "todo" }] ∧
    ({ id := "C", title := "c", depends_on := some "X", status := some "todo" } : Row) ∉
      actionableRows
        [{ id := "A", title := "a", status := some "done" },
         { id := "B", title := "b", depends_on := some "A", status := some "todo" },
         { id := "C", title := "c", depends_on := some "X", status := some "todo" }] := by
  constructor
  · exact ((actionable_closure_spec
      [{ id := "A", title := "a", status := some "done" },
       { id := "B", title := "b", depends_on := some "A", status := some "todo" },
       { id := "C", title := "c", depends_on := some "X", status := some "todo" }]).1
      _ (by decide)).2 (by decide)
  · exact (actionable_closure_spec
      [{ id := "A", title := "a", status := some "done" },
       { id := "B", title := "b", depends_on := some "A", status := some "todo" },
       { id := "C", title := "c", depends_on := some "X", status := some "todo" }]).2.2
      _ (by decide) "X" (by decide) (by decide)

/- ------------------------------------------------------------------ -/
/- Claim C8: the search predicate.                                     -/
/- ------------------------------------------------------------------ -/

/-- C8: the search predicate accepts a row iff the lower-cased query
is a substring of the space-joined, lower-cased concatenation of the
row's title, description, section, stage and tags; the empty query
accepts every row. -/
theorem okSearch_spec (fs : FilterState) (r : Row) :
    (okSearch fs r = true ↔ (jsToLower fs.query).data <:+: (searchHay r).data) ∧
    (fs.query = "" → okSearch fs r = true) := by
  have hq : ci (some fs.query) = jsToLower fs.query := by
    rw [ci, jsOr_some_empty]
  constructor
  · rw [okSearch, hq]
    by_cases h : jsToLower fs.query = ""
    · rw [if_pos h, h]
      rw [show ("" : String).data = [] from rfl]
      simp
    · rw [if_neg h, jsIncludes]
      simp
  · intro h
    rw [okSearch, hq, h]
    rw [show jsToLower "" = "" from rfl]
    simp

/-- Witness for C8: an upper-case query matching inside a title. -/
theorem okSearch_spec_witness :
    okSearch { query := "PORT" } { id := "t", title := "Important Task" } = true :=
  (okSearch_spec { query := "PORT" } { id := "t", title := "Important Task" }).1.mpr
    (by decide)

/- ------------------------------------------------------------------ -/
/- Claim C10: absent stage is bucketed "Unsorted" and filtered out.    -/
/- ------------------------------------------------------------------ -/

/-- C10: a row with no stage is normalised to stage `"Unsorted"` at
load, and under the startup stage selection (the four enum stages) it
fails the stage predicate, so it is excluded from the visible subset
even with every other filter at its default. -/
theorem unsorted_stage_excluded (rows : List Row) (r : Row) (h : r.stage = none) :
    (loadRow r).stage = some "Unsorted" ∧
    (loadRow r ∈ rows →
      loadRow r ∉ visibleRows rows (defaultFilterState (allSections rows))) := by
  have hst : (loadRow r).stage = some "Unsorted" := by
    show some (jsTrim (jsOr r.stage "Unsorted")) = some "Unsorted"
    rw [h]
    decide
  refine ⟨hst, fun _ hvis => ?_⟩
  have hbase : loadRow r ∈ baseVisible rows (defaultFilterState (allSections rows)) := by
    simpa [visibleRows, defaultFilterState] using hvis
  have hok := (List.mem_filter.1 hbase).2
  rw [okAll] at hok
  simp only [Bool.and_eq_true] at hok
  have hstage := hok.1.1.1.2
  rw [okStage, hst] at hstage
  have hsel : (defaultFilterState (allSections rows)).selectedStages = STAGE_ORDER := rfl
  rw [hsel] at hstage
  exact absurd hstage (by decide)

/-- Witness for C10: a concrete stage-less row. -/
theorem unsorted_stage_excluded_witness :
    (loadRow { id := "U", title := "u" }).stage = some "Unsorted" ∧
    loadRow { id := "U", title := "u" } ∉
      visibleRows [loadRow { id := "U", title := "u" }]
        (defaultFilterState (allSections [loadRow { id := "U", title := "u" }])) := by
  have h := unsorted_stage_excluded [loadRow { id := "U", title := "u" }]
    { id := "U", title := "u" } rfl
  exact ⟨h.1, h.2 (by decide)⟩

/- ------------------------------------------------------------------ -/
/- Claim C2: edges only between visible endpoints.                     -/
/- ------------------------------------------------------------------ -/

/-- C2: every built edge has both endpoints in the visible id set, and
an edge `s → t` is emitted exactly when some visible row with id `t`
lists `s` among its dependencies and `s` is the id of a visible row. -/
theorem edges_endpoints_visible (rows : List Row) (fs : FilterState) :
    (∀ e ∈ edgesBuilt rows fs,
        e.source ∈ visibleIds rows fs ∧ e.target ∈ visibleIds rows fs) ∧
    (∀ s t : String,
        (∃ e ∈ edgesBuilt rows fs, e.source = s ∧ e.target = t) ↔
        (∃ r ∈ visibleRows rows fs,
            r.id = t ∧ s ∈ depsOf r ∧ s ∈ visibleIds rows fs)) := by
  constructor
  · intro e he
    rw [edgesBuilt, List.mem_flatMap] at he
    obtain ⟨r, hr, he⟩ := he
    rw [List.mem_map] at he
    obtain ⟨d, hd, rfl⟩ := he
    rw [List.mem_filter] at hd
    exact ⟨by simpa using hd.2, List.mem_map.2 ⟨r, hr, rfl⟩⟩
  · intro s t
    constructor
    · rintro ⟨e, he, hs, ht⟩
      rw [edgesBuilt, List.mem_flatMap] at he
      obtain ⟨r, hr, he⟩ := he
      rw [List.mem_map] at he
      obtain ⟨d, hd, rfl⟩ := he
      rw [List.mem_filter] at hd
      obtain rfl : d = s := hs
      obtain rfl : r.id = t := ht
      exact ⟨r, hr, rfl, hd.1, by simpa using hd.2⟩
    · rintro ⟨r, hr, rfl, hdep, hvis⟩
      refine ⟨⟨s ++ "->" ++ r.id, s, r.id⟩, ?_, rfl, rfl⟩
      rw [edgesBuilt, List.mem_flatMap]
      exact ⟨r, hr, List.mem_map.2 ⟨s, List.mem_filter.2 ⟨hdep, by simpa⟩, rfl⟩⟩

/-- Witness for C2 on the demo rows: the single edge `A → B` exists and
its endpoints are visible. -/
theorem edges_endpoints_visible_witness :
    "A" ∈ visibleIds demoRows demoFS ∧ "B" ∈ visibleIds demoRows demoFS :=
  (edges_endpoints_visible demoRows demoFS).1
    { id := "A->B", source := "A", target := "B" } (by decide)

/- ------------------------------------------------------------------ -/
/- Claim C3: filtering is a subset operation; idempotence fails with   -/
/- the actionable-only flag and holds without it.                      -/
/- ------------------------------------------------------------------ -/

/-- Counterexample to C3 as stated: with the actionable-only flag on,
re-filtering the filtered output of the demo rows is not a no-op,
because actionability is recomputed against the restricted row set. -/
theorem filter_not_idempotent_with_actionable :
    visibleRows (visibleRows demoRows demoFSNext) demoFSNext ≠
      visibleRows demoRows demoFSNext := by
  decide

/-- C3 (amended): the filtered row list is always a subset of the
input, and filtering is idempotent for every filter state whose
actionable-only flag is off. -/
theorem filter_subset_and_idem (rows : List Row) (fs : FilterState) :
    (∀ r ∈ visibleRows rows fs, r ∈ rows) ∧
    (fs.onlyNextActionable = false →
      visibleRows (visibleRows rows fs) fs = visibleRows rows fs) := by
  constructor
  · exact visibleRows_subset rows fs
  · intro hflag
    simp only [visibleRows, baseVisible, hflag, Bool.false_eq_true, if_false,
      List.filter_filter, Bool.and_self]

/-- Witness for C3 (amended) on the demo rows with the startup filter
state, whose actionable-only flag is off. -/
theorem filter_subset_and_idem_witness :
    visibleRows (visibleRows demoRows demoFS) demoFS = visibleRows demoRows demoFS :=
  (filter_subset_and_idem demoRows demoFS).2 rfl

/- ------------------------------------------------------------------ -/
/- Claim C4: edge multiplicity per ordered endpoint pair.              -/
/- ------------------------------------------------------------------ -/

/-- A row listing the same dependency twice, pipe-split to `["A","A"]`. -/
def rowX : Row :=
  { id := "X", title := "x", stage := some "Setup", depends_on := some "A|A",
    status := some "todo" }

/-- Counterexample to C4 as stated: a row listing the same dependency
id twice yields two edges for the pair, with equal identifiers. -/
theorem duplicate_dependency_two_edges :
    (edgesBuilt [rowA, rowX] demoFS).length = 2 ∧
    ¬ ((edgesBuilt [rowA, rowX] demoFS).map (fun e => (e.source, e.target))).Nodup := by
  decide

/-- C4 (amended): when the visible rows have pairwise-distinct ids and
each visible row's pipe-split dependency list is duplicate-free, the
builder emits at most one edge per ordered endpoint pair; a duplicated
dependency entry, however, yields one edge per occurrence. -/
theorem edge_pairs_nodup (rows : List Row) (fs : FilterState)
    (hids : (visibleIds rows fs).Nodup)
    (hdeps : ∀ r ∈ visibleRows rows fs, (depsOf r).Nodup) :
    ((edgesBuilt rows fs).map (fun e => (e.source, e.target))).Nodup := by
  rw [edgesBuilt, List.map_flatMap, List.nodup_flatMap]
  constructor
  · intro r hr
    rw [List.map_map]
    refine List.Nodup.map ?_ ((hdeps r hr).filter _)
    intro d1 d2 h12
    exact congrArg Prod.fst h12
  · have hpw : (visibleRows rows fs).Pairwise (fun a b => a.id ≠ b.id) := by
      rw [visibleIds] at hids
      exact List.pairwise_map.1 hids
    refine hpw.imp ?_
    intro a b hne x hxa hxb
    simp only [List.map_map, List.mem_map] at hxa hxb
    obtain ⟨d1, -, rfl⟩ := hxa
    obtain ⟨d2, -, hx⟩ := hxb
    have h2 : b.id = a.id := by simpa using congrArg Prod.snd hx
    exact hne h2.symm

/-- Witness for C4 (amended) at the demo rows, whose visible ids and
dependency lists are duplicate-free. -/
theorem edge_pairs_nodup_witness :
    ((edgesBuilt demoRows demoFS).map (fun e => (e.source, e.target))).Nodup :=
  edge_pairs_nodup demoRows demoFS (by decide) (by decide)

/- ------------------------------------------------------------------ -/
/- Claim C7: the toggle mutation is frame-preserving.                  -/
/- ------------------------------------------------------------------ -/

/-- C7: toggling replaces exactly the status field of the rows bearing
the given id (with `"done"` or `"todo"` according to the boolean) and
leaves every other row, and every other field, unchanged. -/
theorem toggle_frame (rows : List Row) (rid : String) (c : Bool) :
    (toggleStatus rows rid c).length = rows.length ∧
    (∀ (i : Nat) (r : Row), rows[i]? = some r →
      ((r.id ≠ rid → (toggleStatus rows rid c)[i]? = some r) ∧
       (r.id = rid → (toggleStatus rows rid c)[i]? =
          some { r with status := some (if c then "done" else "todo") }))) := by
  refine ⟨by simp [toggleStatus], fun i r hr => ⟨fun hid => ?_, fun hid => ?_⟩⟩
  · rw [toggleStatus, List.getElem?_map, hr]
    simp [hid]
  · rw [toggleStatus, List.getElem?_map, hr]
    simp [hid]

/-- Witness for C7: un-completing row `A` of the demo rows rewrites
exactly its status field. -/
theorem toggle_frame_witness :
    (toggleStatus demoRows "A" false).length = demoRows.length ∧
    (toggleStatus demoRows "A" false)[0]? =
      some { rowA with status := some "todo" } :=
  ⟨(toggle_frame demoRows "A" false).1,
   ((toggle_frame demoRows "A" false).2 0 rowA rfl).2 rfl⟩

/- ------------------------------------------------------------------ -/
/- Claim C6: toggling a row's status and toggling it back restores     -/
/- the actionable set and the filtered node and edge lists.            -/
/- ------------------------------------------------------------------ -/

/-- A row transformation that touches no field other than `status`. -/
def KeepsFields (g : Row → Row) : Prop :=
  ∀ r, (g r).id = r.id ∧ (g r).title = r.title ∧ (g r).sect = r.sect ∧
    (g r).stage = r.stage ∧ (g r).description = r.description ∧
    (g r).priority = r.priority ∧ (g r).depends_on = r.depends_on ∧
    (g r).tags = r.tags

theorem depsOf_congr {g : Row → Row} (hf : KeepsFields g) (r : Row) :
    depsOf (g r) = depsOf r := by
  rw [depsOf, depsOf, (hf r).2.2.2.2.2.2.1]

theorem doneIds_map (rows : List Row) {g : Row → Row} (hf : KeepsFields g)
    (hd : ∀ r ∈ rows, isDone (g r) = isDone r) :
    doneIds (rows.map g) = doneIds rows := by
  simp only [doneIds, List.filter_map, List.map_map]
  rw [(List.filter_congr (fun a ha => hd a ha) :
    rows.filter (isDone ∘ g) = rows.filter isDone)]
  exact List.map_congr_left (fun a _ => (hf a).1)

theorem actionableIds_map (rows : List Row) {g : Row → Row} (hf : KeepsFields g)
    (hd : ∀ r ∈ rows, isDone (g r) = isDone r) :
    actionableIds (rows.map g) = actionableIds rows := by
  simp only [actionableIds, actionableRows, List.filter_map, List.map_map]
  rw [(List.filter_congr (fun a ha => by
      show isActionable (rows.map g) (g a) = isActionable rows a
      rw [isActionable, isActionable, hd a ha, depsOf_congr hf a,
        doneIds_map rows hf hd]) :
    rows.filter (isActionable (rows.map g) ∘ g) = rows.filter (isActionable rows))]
  exact List.map_congr_left (fun a _ => (hf a).1)

theorem okAll_congr (fs : FilterState) {g : Row → Row} (hf : KeepsFields g)
    (r : Row) (hdr : isDone (g r) = isDone r) :
    okAll fs (g r) = okAll fs r := by
  obtain ⟨hid, htitle, hsect, hstage, hdesc, hprio, hdep, htags⟩ := hf r
  have h1 : okStatus fs (g r) = okStatus fs r := by
    cases hsf : fs.statusFilter <;> simp [okStatus, hsf, hdr]
  have h2 : okStage fs (g r) = okStage fs r := by
    rw [okStage, okStage, hstage]
  have h3 : okSection fs (g r) = okSection fs r := by
    rw [okSection, okSection, hsect]
  have h4 : okTags fs (g r) = okTags fs r := by
    rw [okTags, okTags, htags]
  have h5 : okSearch fs (g r) = okSearch fs r := by
    rw [okSearch, okSearch, searchHay, searchHay, htitle, hsect, hstage,
      hdesc, htags]
  rw [okAll, okAll, h1, h2, h3, h4, h5]

theorem visibleRows_map (rows : List Row) (fs : FilterState) {g : Row → Row}
    (hf : KeepsFields g) (hd : ∀ r ∈ rows, isDone (g r) = isDone r) :
    visibleRows (rows.map g) fs = (visibleRows rows fs).map g := by
  have hbase : baseVisible (rows.map g) fs = (baseVisible rows fs).map g := by
    rw [baseVisible, baseVisible, List.filter_map]
    exact congrArg (List.map g)
      (List.filter_congr (fun a ha => okAll_congr fs hf a (hd a ha)))
  rw [visibleRows, visibleRows]
  by_cases hflag : fs.onlyNextActionable = true
  · rw [if_pos hflag, if_pos hflag, hbase, List.filter_map]
    refine congrArg (List.map g) (List.filter_congr (fun a _ => ?_))
    show (actionableIds (rows.map g)).contains (g a).id =
      (actionableIds rows).contains a.id
    rw [(hf a).1, actionableIds_map rows hf hd]
  · rw [if_neg hflag, if_neg hflag]
    exact hbase

theorem visibleIds_map (rows : List Row) (fs : FilterState) {g : Row → Row}
    (hf : KeepsFields g) (hd : ∀ r ∈ rows, isDone (g r) = isDone r) :
    visibleIds (rows.map g) fs = visibleIds rows fs := by
  rw [visibleIds, visibleIds, visibleRows_map rows fs hf hd, List.map_map]
  exact List.map_congr_left (fun a _ => (hf a).1)

theorem flatMap_congr_mem {α β : Type} {l : List α} {f h : α → List β}
    (H : ∀ a ∈ l, f a = h a) : l.flatMap f = l.flatMap h := by
  induction l with
  | nil => rfl
  | cons a l ih =>
    rw [List.flatMap_cons, List.flatMap_cons, H a (List.mem_cons_self a l),
      ih (fun b hb => H b (List.mem_cons_of_mem a hb))]

theorem nodesBuilt_map (rows : List Row) (fs : FilterState) {g : Row → Row}
    (hf : KeepsFields g) (hd : ∀ r ∈ rows, isDone (g r) = isDone r) :
    nodesBuilt (rows.map g) fs = nodesBuilt rows fs := by
  rw [nodesBuilt, nodesBuilt, visibleRows_map rows fs hf hd, List.map_map]
  refine List.map_congr_left (fun a ha => ?_)
  obtain ⟨hid, htitle, hsect, hstage, hdesc, hprio, hdep, htags⟩ := hf a
  have ha' : a ∈ rows := visibleRows_subset rows fs a ha
  show mkNode (g a) = mkNode a
  rw [mkNode, mkNode, hid, htitle, hsect, hstage, hdesc, hprio, hd a ha']

theorem edgesBuilt_map (rows : List Row) (fs : FilterState) {g : Row → Row}
    (hf : KeepsFields g) (hd : ∀ r ∈ rows, isDone (g r) = isDone r) :
    edgesBuilt (rows.map g) fs = edgesBuilt rows fs := by
  rw [edgesBuilt, edgesBuilt, visibleRows_map rows fs hf hd, List.flatMap_map]
  refine flatMap_congr_mem (fun r _ => ?_)
  rw [visibleIds_map rows fs hf hd, depsOf_congr hf r, (hf r).1]

theorem toggle_toggle (rows : List Row) (rid : String) (c b : Bool) :
    toggleStatus (toggleStatus rows rid c) rid b = toggleStatus rows rid b := by
  rw [toggleStatus, toggleStatus, toggleStatus, List.map_map]
  refine List.map_congr_left (fun r _ => ?_)
  by_cases h : r.id = rid <;> simp [h]

theorem toggle_keepsFields (rid : String) (b : Bool) :
    KeepsFields (fun rr : Row =>
      if rr.id = rid then { rr with status := some (if b then "done" else "todo") }
      else rr) := by
  intro r
  by_cases h : r.id = rid <;> simp [h]

theorem toggle_isDone (rows : List Row) (rid : String) (b : Bool)
    (hb : ∀ r ∈ rows, r.id = rid → (b = true ↔ r.status = some "done")) :
    ∀ r ∈ rows, isDone ((fun rr : Row =>
      if rr.id = rid then { rr with status := some (if b then "done" else "todo") }
      else rr) r) = isDone r := by
  intro r hr
  by_cases h : r.id = rid
  · have hiff := hb r hr h
    cases b <;> simp_all [isDone]
  · simp [h]

/-- C6: toggling a row's completion status and then toggling it back
(to the row's original done-ness) restores the actionable id set and
the built node and edge lists exactly. -/
theorem toggle_roundtrip (rows : List Row) (fs : FilterState) (rid : String)
    (c b : Bool)
    (hb : ∀ r ∈ rows, r.id = rid → (b = true ↔ r.status = some "done")) :
    actionableIds (toggleStatus (toggleStatus rows rid c) rid b) =
      actionableIds rows ∧
    nodesBuilt (toggleStatus (toggleStatus rows rid c) rid b) fs =
      nodesBuilt rows fs ∧
    edgesBuilt (toggleStatus (toggleStatus rows rid c) rid b) fs =
      edgesBuilt rows fs := by
  rw [toggle_toggle rows rid c b]
  simp only [toggleStatus]
  exact ⟨actionableIds_map rows (toggle_keepsFields rid b)
      (toggle_isDone rows rid b hb),
    nodesBuilt_map rows fs (toggle_keepsFields rid b)
      (toggle_isDone rows rid b hb),
    edgesBuilt_map rows fs (toggle_keepsFields rid b)
      (toggle_isDone rows rid b hb)⟩

/-- Witness for C6: completing then un-completing row `A` of the demo
rows leaves the actionable set and the built graph unchanged. -/
theorem toggle_roundtrip_witness :
    actionableIds (toggleStatus (toggleStatus demoRows "A" false) "A" true) =
      actionableIds demoRows ∧
    nodesBuilt (toggleStatus (toggleStatus demoRows "A" false) "A" true) demoFS =
      nodesBuilt demoRows demoFS ∧
    edgesBuilt (toggleStatus (toggleStatus demoRows "A" false) "A" true) demoFS =
      edgesBuilt demoRows demoFS :=
  toggle_roundtrip demoRows demoFS "A" false true (by decide)

/- ------------------------------------------------------------------ -/
/- Claim C9: the section-defaulting effect.                            -/
/- ------------------------------------------------------------------ -/

/-- Counterexample to C9 as stated: the effect body has no ran-once
guard, so in the state reached after the user clears the selection with
data loaded (row set non-empty, selection empty) the effect fires again
and rewrites the selection to all observed sections instead of leaving
it empty. -/
theorem section_default_not_once :
    applySectionDefault demoRows [] = ["General"] ∧
    (["General"] : List String) ≠ [] := by
  decide

/-- C9 (amended): the section-defaulting effect fires whenever the row
set is non-empty and the selected-section set is empty — not only once
at load — and leaves any non-empty selection untouched. -/
theorem section_default_retriggers (rows : List Row) (sel : List String)
    (hrows : rows ≠ []) :
    applySectionDefault rows [] = allSections rows ∧
    (sel ≠ [] → applySectionDefault rows sel = sel) := by
  constructor
  · rw [applySectionDefault, if_pos]
    exact ⟨fun h => hrows (List.length_eq_zero.1 h), rfl⟩
  · intro hsel
    rw [applySectionDefault, if_neg]
    rintro ⟨-, h0⟩
    exact hsel (List.length_eq_zero.1 h0)

/-- Witness for C9 (amended) at the demo rows. -/
theorem section_default_retriggers_witness :
    applySectionDefault demoRows [] = allSections demoRows ∧
    applySectionDefault demoRows ["General"] = ["General"] :=
  ⟨(section_default_retriggers demoRows ["General"] (by decide)).1,
   (section_default_retriggers demoRows ["General"] (by decide)).2 (by decide)⟩

/- ------------------------------------------------------------------ -/
/- Claim C5: layout places edge sources strictly before targets on the -/
/- rank axis.                                                          -/
/- ------------------------------------------------------------------ -/

/-- Layout direction flag (`"LR"` horizontal, `"TB"` vertical). -/
inductive LayoutDir
  | LR
  | TB
  deriving DecidableEq, Repr

/-- Layout tunables from the source. -/
def NODE_W : Nat := 320

/-- Node box height. -/
def NODE_H : Nat := 130

/-- Gap between dependency layers. -/
def RANK_SEP : Nat := 200

/-- Gap between siblings. -/
def NODE_SEP : Nat := 80

/-- Modelled from the spec: the hierarchical layout is delegated to the
external dagre library, which is not part of this repository; §4.4
prescribes rank assignment by longest-path distance from source nodes.
`rankOf` computes that distance as a fuel-bounded recursion over the
incoming edges. -/
def rankOf (edges : List (String × String)) : Nat → String → Nat
  | 0, _ => 0
  | fuel+1, v =>
    ((edges.filter (fun e => decide (e.2 = v))).map
      (fun e => rankOf edges fuel e.1 + 1)).foldr max 0

/-- Modelled from the spec: the stabilised longest-path rank (fuel one
more than the edge count suffices on acyclic graphs). -/
def layoutRank (edges : List (String × String)) (v : String) : Nat :=
  rankOf edges (edges.length + 1) v

/-- Modelled from the spec: the rank-axis coordinate — margin plus rank
times (box extent along the rank axis plus rank separation). -/
def rankCoord (dir : LayoutDir) (edges : List (String × String)) (v : String) : Nat :=
  40 + layoutRank edges v * ((match dir with | .LR => NODE_W | .TB => NODE_H) + RANK_SEP)

/-- Modelled from the spec: sibling order within a rank — the node's
index among the same-rank nodes. -/
def siblingIndex (nodes : List String) (edges : List (String × String))
    (v : String) : Nat :=
  (nodes.filter (fun w => decide (layoutRank edges w = layoutRank edges v))).indexOf v

/-- Modelled from the spec: the sibling-axis coordinate. -/
def sibCoord (dir : LayoutDir) (nodes : List String)
    (edges : List (String × String)) (v : String) : Nat :=
  40 + siblingIndex nodes edges v * ((match dir with | .LR => NODE_H | .TB => NODE_W) + NODE_SEP)

/-- Modelled from the spec: axis mapping — rank drives x when the
direction is `LR` and y when it is `TB`. -/
def layoutPos (dir : LayoutDir) (nodes : List String)
    (edges : List (String × String)) (v : String) : Nat × Nat :=
  match dir with
  | .LR => (rankCoord .LR edges v, sibCoord .LR nodes edges v)
  | .TB => (sibCoord .TB nodes edges v, rankCoord .TB edges v)

/-- The coordinate on the rank axis: x for `LR`, y for `TB`. -/
def rankAxis (dir : LayoutDir) (p : Nat × Nat) : Nat :=
  match dir with
  | .LR => p.1
  | .TB => p.2

/-- Acyclicity certificate: a topological numbering of the nodes,
edge-monotone and bounded by the edge count (every finite DAG admits
one — the longest-path rank itself qualifies). -/
def TopoCert (edges : List (String × String)) (topo : String → Nat) : Prop :=
  (∀ e ∈ edges, topo e.1 < topo e.2) ∧ (∀ e ∈ edges, topo e.2 ≤ edges.length)

theorem le_foldr_max {l : List Nat} {a : Nat} (h : a ∈ l) : a ≤ l.foldr max 0 := by
  induction l with
  | nil => cases h
  | cons b l ih =>
    rcases List.mem_cons.1 h with rfl | h'
    · exact le_max_left _ _
    · exact le_trans (ih h') (le_max_right _ _)

theorem rankOf_step (edges : List (String × String)) (fuel : Nat) {u v : String}
    (he : (u, v) ∈ edges) :
    rankOf edges fuel u + 1 ≤ rankOf edges (fuel + 1) v := by
  have hmem : rankOf edges fuel u + 1 ∈
      (edges.filter (fun e => decide (e.2 = v))).map
        (fun e => rankOf edges fuel e.1 + 1) :=
    List.mem_map.2 ⟨(u, v), List.mem_filter.2 ⟨he, by simp⟩, rfl⟩
  exact le_foldr_max hmem

theorem rankOf_stab (edges : List (String × String)) (topo : String → Nat)
    (hmono : ∀ e ∈ edges, topo e.1 < topo e.2) :
    ∀ k v, topo v ≤ k → ∀ f g, k ≤ f → k ≤ g →
      rankOf edges f v = rankOf edges g v := by
  intro k
  induction k using Nat.strong_induction_on with
  | _ k ih =>
    have hnil : ∀ v, topo v = 0 →
        edges.filter (fun e => decide (e.2 = v)) = [] := by
      intro v hv0
      rw [List.filter_eq_nil_iff]
      intro e he hdec
      have hev : e.2 = v := by simpa using hdec
      have := hmono e he
      rw [hev, hv0] at this
      exact Nat.not_lt_zero _ this
    intro v hv f g hf hg
    cases f with
    | zero =>
      cases g with
      | zero => rfl
      | succ g =>
        have hv0 : topo v = 0 := Nat.le_zero.1 (le_trans hv hf)
        show rankOf edges 0 v = rankOf edges (g + 1) v
        simp [rankOf, hnil v hv0]
    | succ f =>
      cases g with
      | zero =>
        have hv0 : topo v = 0 := Nat.le_zero.1 (le_trans hv hg)
        show rankOf edges (f + 1) v = rankOf edges 0 v
        simp [rankOf, hnil v hv0]
      | succ g =>
        simp only [rankOf]
        congr 1
        refine List.map_congr_left (fun e he' => ?_)
        have hee := List.mem_filter.1 he'
        have hev : e.2 = v := by simpa using hee.2
        have hlt : topo e.1 < k := by
          have := hmono e hee.1
          rw [hev] at this
          exact lt_of_lt_of_le this hv
        have heq := ih (topo e.1) hlt e.1 le_rfl f g
          (Nat.le_of_lt_succ (lt_of_lt_of_le hlt hf))
          (Nat.le_of_lt_succ (lt_of_lt_of_le hlt hg))
        rw [heq]

/-- C5: on the visible subgraph, for any acyclicity certificate and
either direction flag, the layout assigns along every built edge a
strictly smaller rank-axis coordinate (x for `LR`, y for `TB`) to the
source than to the target. -/
theorem layout_rank_monotone (rows : List Row) (fs : FilterState) (dir : LayoutDir)
    (_hne : visibleRows rows fs ≠ [])
    (hacyc : ∃ topo : String → Nat,
      TopoCert ((edgesBuilt rows fs).map (fun e => (e.source, e.target))) topo) :
    ∀ p ∈ (edgesBuilt rows fs).map (fun e => (e.source, e.target)),
      rankAxis dir (layoutPos dir (visibleIds rows fs)
        ((edgesBuilt rows fs).map (fun e => (e.source, e.target))) p.1) <
      rankAxis dir (layoutPos dir (visibleIds rows fs)
        ((edgesBuilt rows fs).map (fun e => (e.source, e.target))) p.2) := by
  obtain ⟨topo, hmono, hbound⟩ := hacyc
  intro p hp
  have hp' : (p.1, p.2) ∈ (edgesBuilt rows fs).map (fun e => (e.source, e.target)) := by
    rw [Prod.mk.eta]
    exact hp
  have h12 : topo p.1 < topo p.2 := hmono _ hp'
  have hb2 : topo p.2 ≤ ((edgesBuilt rows fs).map (fun e => (e.source, e.target))).length :=
    hbound _ hp'
  have hb1 : topo p.1 ≤ ((edgesBuilt rows fs).map (fun e => (e.source, e.target))).length :=
    le_of_lt (lt_of_lt_of_le h12 hb2)
  have hrank : layoutRank ((edgesBuilt rows fs).map (fun e => (e.source, e.target))) p.1 <
      layoutRank ((edgesBuilt rows fs).map (fun e => (e.source, e.target))) p.2 := by
    rw [layoutRank, layoutRank]
    have hstab : rankOf ((edgesBuilt rows fs).map (fun e => (e.source, e.target)))
        (((edgesBuilt rows fs).map (fun e => (e.source, e.target))).length) p.1 =
        rankOf ((edgesBuilt rows fs).map (fun e => (e.source, e.target)))
        (((edgesBuilt rows fs).map (fun e => (e.source, e.target))).length + 1) p.1 :=
      rankOf_stab _ topo hmono (topo p.1) p.1 le_rfl _ _ hb1 (le_trans hb1 (Nat.le_succ _))
    have hstep := rankOf_step ((edgesBuilt rows fs).map (fun e => (e.source, e.target)))
      (((edgesBuilt rows fs).map (fun e => (e.source, e.target))).length) hp'
    omega
  cases dir <;>
    simp only [rankAxis, layoutPos, rankCoord, NODE_W, NODE_H, RANK_SEP] <;>
    omega

/-- Demo row `C`: todo, depends on `B` (Scenario 4 chain `A → B → C`). -/
def rowC : Row :=
  { id := "C", title := "c", stage := some "Setup", depends_on := some "B",
    status := some "todo" }

/-- The three-row chain of Scenario 4. -/
def chainRows : List Row := [rowA, rowB, rowC]

/-- Witness for C5 on the chain `A → B → C` with horizontal layout. -/
theorem layout_rank_monotone_witness :
    rankAxis .LR (layoutPos .LR (visibleIds chainRows demoFS)
      ((edgesBuilt chainRows demoFS).map (fun e => (e.source, e.target))) "A") <
    rankAxis .LR (layoutPos .LR (visibleIds chainRows demoFS)
      ((edgesBuilt chainRows demoFS).map (fun e => (e.source, e.target))) "B") :=
  layout_rank_monotone chainRows demoFS .LR (by decide)
    ⟨fun s => if s = "A" then 0 else if s = "B" then 1 else 2, by decide, by decide⟩
    ("A", "B") (by decide)

end FlowChart
